import Mathlib

/-!
Formal model of the two-tier parallel brute-force search engine of
`src/year2015/day04.rs` (Advent of Code 2015 day 4).

The engine searches for the smallest positive integer `n` such that the MD5
digest of `secret ++ decimal(n)` has at least five (tier 1) respectively six
(tier 2) leading zero nibbles.  A sequential prologue covers candidates
`1..999`; afterwards worker threads repeatedly claim contiguous blocks of
1000 candidates via an atomic `fetch_add` on a shared counter (initialised
to 1000), rewrite the last three decimal digits of a reusable byte buffer,
hash, and record hits with atomic `fetch_min` into `first` / `second`,
setting a `done` flag on a tier-2 hit.

Modelling notes:
* Byte buffers are `List Nat`; machine `u32` values are `Nat` with explicit
  `% 4294967296` wherever the Rust code can wrap.
* Atomic `fetch_min` / `fetch_add` / flag stores commute, so the final value
  of the shared state of a real execution depends only on which blocks were
  claimed; blocks are always handed out contiguously starting at offset
  1000.  A run of the engine is therefore modelled by the number `k` of
  blocks claimed before every worker observed the `done` flag, and a run is
  complete exactly when the final `done` flag is set (workers stop claiming
  only then).  Quantifying over all `k` covers every interleaving of block
  claims; concrete values of `k` correspond to concrete realizable
  schedules (for example `k` larger than needed for the first tier-2 hit
  arises when other workers claimed blocks before the flag was raised).
-/

set_option maxRecDepth 10000

namespace Day04

/-- Modelled from the spec: the MD5 module (`crate::util::md5`) used by
`check_hash` is not among the provided sources.  The spec (sections 2 and
4.1) describes the hash as a stateless, deterministic, pluggable function
from byte buffers to fixed-size digests that are inspected only through
their leading zero nibbles.  We model it as an arbitrary function returning
the leading 32-bit word of the digest, exactly the `result` component the
Rust code masks with `0xffffff00` / `0xfffff000`. -/
def HashFn : Type := List Nat → Nat

/-- Decimal ASCII digits of a number, fuel-indexed so that it computes by
kernel reduction.  The fuel is always sufficient because `n / 10 < n`. -/
def asciiDigitsAux : Nat → Nat → List Nat
  | 0, _ => []
  | fuel + 1, n => if n < 10 then [48 + n] else asciiDigitsAux fuel (n / 10) ++ [48 + n % 10]

/-- Decimal ASCII byte representation of `n`, as produced by Rust's
`format!` for an unsigned integer (`1234 ↦ [49, 50, 51, 52]`). -/
def asciiDigits (n : Nat) : List Nat := asciiDigitsAux (n + 1) n

/-- Bytes of `format!("{}{}", secret, n)`: the secret bytes followed by the
decimal ASCII representation of `n`. -/
def encode (secret : List Nat) (n : Nat) : List Nat := secret ++ asciiDigits n

/-- The shared search state of `day04.rs`: the struct `Shared` with the
secret prefix (field `prefix` in the Rust source; `prefix` is a Lean
keyword so we call it `secret`), the `done` flag, the `counter` handing out
block offsets, and the two tier minima `first` and `second`, both
initialised to `u32::MAX`. -/
@[ext]
structure Shared where
  secret : List Nat
  done : Bool
  counter : Nat
  first : Nat
  second : Nat

/-- The leading 32-bit word of the digest of `buffer`: `hash(buffer).0`
reduced to the `u32` range. -/
def digestWord (hash : HashFn) (buffer : List Nat) : Nat := hash buffer % 4294967296

/-- Model of `check_hash`: mask the leading digest word; on a tier-2 hit
(`result & 0xffffff00 == 0`) lower `second` and set `done`; otherwise, on a
tier-1 hit (`result & 0xfffff000 == 0`) lower `first`. -/
def checkHash (hash : HashFn) (buffer : List Nat) (n : Nat) (s : Shared) : Shared :=
  let result := digestWord hash buffer
  if result &&& 0xffffff00 == 0 then
    { s with second := min s.second n, done := true }
  else if result &&& 0xfffff000 == 0 then
    { s with first := min s.first n }
  else
    s

/-- Tier-2 test of candidate `n` (at least six leading zero nibbles of the
digest, i.e. `result & 0xffffff00 == 0`). -/
def tier2B (hash : HashFn) (secret : List Nat) (n : Nat) : Bool :=
  digestWord hash (encode secret n) &&& 0xffffff00 == 0

/-- Tier-1 test of candidate `n` (at least five leading zero nibbles of the
digest, i.e. `result & 0xfffff000 == 0`). -/
def tier1B (hash : HashFn) (secret : List Nat) (n : Nat) : Bool :=
  digestWord hash (encode secret n) &&& 0xfffff000 == 0

/-- Candidates that take the `else if` branch of `check_hash`: tier-1 hits
that are not tier-2 hits.  Only these lower `first`. -/
def tier1onlyB (hash : HashFn) (secret : List Nat) (n : Nat) : Bool :=
  !tier2B hash secret n && tier1B hash secret n

/-- Model of `shared.counter.fetch_add(size)`: returns the previous counter
value and the state with the counter bumped, wrapping like `AtomicU32`. -/
def claimBlock (s : Shared) (size : Nat) : Nat × Shared :=
  (s.counter, { s with counter := (s.counter + size) % 4294967296 })

/-- The worker's in-place digit rewrite: `buffer[size] = b'0' + n / 100`,
`buffer[size+1] = b'0' + (n / 10) % 10`, `buffer[size+2] = b'0' + n % 10`. -/
def updateDigits (buffer : List Nat) (size n : Nat) : List Nat :=
  ((buffer.set size (48 + n / 100)).set (size + 1) (48 + n / 10 % 10)).set
    (size + 2) (48 + n % 10)

/-- The first `j` iterations of the worker's inner loop for the block at
`offset`: the reusable buffer starts as `format!("{}{}", prefix, offset)`,
`size` is its length minus three, and each iteration rewrites the last
three digits and calls `check_hash` on candidate `offset + n` (a `u32`
addition, hence the wrap). -/
def blockState (hash : HashFn) (offset : Nat) (s : Shared) (j : Nat) : List Nat × Shared :=
  let string := encode s.secret offset
  let size := string.length - 3
  (List.range j).foldl
    (fun acc n =>
      let buffer := updateDigits acc.1 size n
      (buffer, checkHash hash buffer ((offset + n) % 4294967296) acc.2))
    (string, s)

/-- One full block of 1000 candidates processed by a worker. -/
def workerBlock (hash : HashFn) (offset : Nat) (s : Shared) : Shared :=
  (blockState hash offset s 1000).2

/-- One iteration of the worker loop body: claim a block of 1000 candidates
and process it completely. -/
def runStep (hash : HashFn) (s : Shared) : Shared :=
  let claim := claimBlock s 1000
  workerBlock hash claim.1 claim.2

/-- The `Shared` value built by `parse`: `done = false`, `counter = 1000`,
`first = second = u32::MAX`. -/
def initShared (secret : List Nat) : Shared :=
  { secret := secret, done := false, counter := 1000, first := 4294967295,
    second := 4294967295 }

/-- Sequential processing of a list of candidates with general-form
encoding, as in the prologue loop of `parse`. -/
def foldCheck (hash : HashFn) (l : List Nat) (s : Shared) : Shared :=
  l.foldl (fun s n => checkHash hash (encode s.secret n) n s) s

/-- The sequential prologue of `parse`: candidates `1..999` with
general-form encoding. -/
def prologue (hash : HashFn) (s : Shared) : Shared :=
  foldCheck hash (List.range' 1 999) s

/-- The final shared state of a run of the engine in which the workers
claimed `k` blocks in total after the prologue. -/
def searchRun (hash : HashFn) (secret : List Nat) (k : Nat) : Shared :=
  (List.range k).foldl (fun s _ => runStep hash s) (prologue hash (initShared secret))

/-- Model of `part1`: load `first`. -/
def part1 (input : Shared) : Nat := input.first

/-- Model of `part2`: load `second`. -/
def part2 (input : Shared) : Nat := input.second

/-- Rust's `char::is_whitespace`: the Unicode `White_Space` property. -/
def rustIsWhitespace (c : Char) : Bool :=
  (9 ≤ c.toNat && c.toNat ≤ 13) || c.toNat == 32 || c.toNat == 133 ||
    c.toNat == 160 || c.toNat == 5760 || (8192 ≤ c.toNat && c.toNat ≤ 8202) ||
    c.toNat == 8232 || c.toNat == 8233 || c.toNat == 8239 || c.toNat == 8287 ||
    c.toNat == 12288

/-- Rust's `str::trim`: remove leading and trailing whitespace characters. -/
def rustTrim (s : List Char) : List Char :=
  ((s.dropWhile rustIsWhitespace).reverse.dropWhile rustIsWhitespace).reverse

/-- UTF-8 encoding of one character (`str::as_bytes` on the secret). -/
def utf8EncodeChar (c : Char) : List Nat :=
  let v := c.toNat
  if v < 128 then [v]
  else if v < 2048 then [192 + v / 64, 128 + v % 64]
  else if v < 65536 then [224 + v / 4096, 128 + v / 64 % 64, 128 + v % 64]
  else [240 + v / 262144, 128 + v / 4096 % 64, 128 + v / 64 % 64, 128 + v % 64]

/-- UTF-8 encoding of a string. -/
def utf8Encode (s : List Char) : List Nat := (s.map utf8EncodeChar).flatten

/-- Model of `parse`: trim the raw input, store its bytes as the secret
prefix, run the prologue and then the parallel phase (a run claiming `k`
blocks), and return the shared state. -/
def parseModel (hash : HashFn) (input : List Char) (k : Nat) : Shared :=
  searchRun hash (utf8Encode (rustTrim input)) k

/-- Hash assigning a tier-2 digest to candidate 3 of the empty secret and a
non-qualifying digest to everything else. -/
def hashA : HashFn :=
  fun buffer => if buffer = [51] then 0 else 4294967295

/-- Hash assigning a tier-2 digest to candidate 3 and a tier-1-only digest
(`0xf00`) to candidate 500 of the empty secret. -/
def hashB : HashFn :=
  fun buffer =>
    if buffer = [51] then 0 else if buffer = [53, 48, 48] then 3840 else 4294967295

/-- Hash assigning a tier-2 digest to candidate 1500 and a tier-1-only
digest to candidate 2500 of the empty secret. -/
def hashC : HashFn :=
  fun buffer =>
    if buffer = [49, 53, 48, 48] then 0
    else if buffer = [50, 53, 48, 48] then 3840
    else 4294967295

/-- Hash assigning a tier-1-only digest to candidate 2 and a tier-2 digest
to candidate 1500 of the empty secret. -/
def hashD : HashFn :=
  fun buffer =>
    if buffer = [50] then 3840
    else if buffer = [49, 53, 48, 48] then 0
    else 4294967295

/-- Hash under which no candidate ever qualifies. -/
def hashNone : HashFn := fun _ => 4294967295

/-- A shared state whose counter is within 1000 of the `u32` wrap point. -/
def nearOverflowState : Shared :=
  { secret := [], done := false, counter := 4294966400, first := 4294967295,
    second := 4294967295 }

/-! ### Decimal encoding lemmas -/

theorem asciiDigitsAux_congr :
    ∀ f g n, n < f → n < g → asciiDigitsAux f n = asciiDigitsAux g n := by
  intro f
  induction f with
  | zero => intro g n h; omega
  | succ f ih =>
    intro g n hf hg
    cases g with
    | zero => omega
    | succ g =>
      simp only [asciiDigitsAux]
      by_cases h : n < 10
      · simp [h]
      · simp only [if_neg h]
        have hdiv : n / 10 < n := Nat.div_lt_self (by omega) (by omega)
        rw [ih g (n / 10) (by omega) (by omega)]

theorem asciiDigits_eq (n : Nat) :
    asciiDigits n = if n < 10 then [48 + n] else asciiDigits (n / 10) ++ [48 + n % 10] := by
  unfold asciiDigits
  rw [asciiDigitsAux]
  by_cases h : n < 10
  · simp [h]
  · simp only [if_neg h]
    have hdiv : n / 10 < n := Nat.div_lt_self (by omega) (by omega)
    rw [asciiDigitsAux_congr n (n / 10 + 1) (n / 10) (by omega) (by omega)]

theorem asciiDigits_ne_nil (n : Nat) : asciiDigits n ≠ [] := by
  rw [asciiDigits_eq]
  by_cases h : n < 10 <;> simp [h]

theorem asciiDigits_inj : ∀ m n : Nat, asciiDigits m = asciiDigits n → m = n := by
  intro m
  induction m using Nat.strong_induction_on with
  | _ m ih =>
    intro n h
    rw [asciiDigits_eq m, asciiDigits_eq n] at h
    by_cases hm : m < 10 <;> by_cases hn : n < 10
    · simp [hm, hn] at h; omega
    · simp only [if_pos hm, if_neg hn] at h
      have hlen := congrArg List.length h
      rcases e : asciiDigits (n / 10) with _ | ⟨a, l⟩
      · exact absurd e (asciiDigits_ne_nil _)
      · rw [e] at hlen; simp at hlen
    · simp only [if_neg hm, if_pos hn] at h
      have hlen := congrArg List.length h
      rcases e : asciiDigits (m / 10) with _ | ⟨a, l⟩
      · exact absurd e (asciiDigits_ne_nil _)
      · rw [e] at hlen; simp at hlen
    · simp only [if_neg hm, if_neg hn] at h
      have hlen : ([48 + m % 10] : List Nat).length = ([48 + n % 10] : List Nat).length := rfl
      obtain ⟨h1, h2⟩ := List.append_inj' h hlen
      have hmod : m % 10 = n % 10 := by
        have := List.head_eq_of_cons_eq h2; omega
      have hdivlt : m / 10 < m := Nat.div_lt_self (by omega) (by omega)
      have hdiv : m / 10 = n / 10 := ih (m / 10) hdivlt (n / 10) h1
      omega

theorem asciiDigits_block (q m : Nat) (hq : 1 ≤ q) (hm : m < 1000) :
    asciiDigits (1000 * q + m) =
      asciiDigits q ++ [48 + m / 100, 48 + m / 10 % 10, 48 + m % 10] := by
  have e1 : (1000 * q + m) / 10 = 100 * q + m / 10 := by omega
  have e2 : (1000 * q + m) % 10 = m % 10 := by omega
  have e3 : (100 * q + m / 10) / 10 = 10 * q + m / 100 := by omega
  have e4 : (100 * q + m / 10) % 10 = m / 10 % 10 := by omega
  have e5 : (10 * q + m / 100) / 10 = q := by omega
  have e6 : (10 * q + m / 100) % 10 = m / 100 := by omega
  rw [asciiDigits_eq (1000 * q + m), if_neg (by omega), e1, e2]
  rw [asciiDigits_eq (100 * q + m / 10), if_neg (by omega), e3, e4]
  rw [asciiDigits_eq (10 * q + m / 100), if_neg (by omega), e5, e6]
  simp [List.append_assoc]

theorem encode_nil (n : Nat) : encode [] n = asciiDigits n := by
  simp [encode]

/-! ### The three branches of `check_hash` -/

theorem checkHash_secret (hash : HashFn) (buffer : List Nat) (n : Nat) (s : Shared) :
    (checkHash hash buffer n s).secret = s.secret := by
  unfold checkHash
  dsimp only
  split
  · rfl
  · split <;> rfl

theorem checkHash_counter (hash : HashFn) (buffer : List Nat) (n : Nat) (s : Shared) :
    (checkHash hash buffer n s).counter = s.counter := by
  unfold checkHash
  dsimp only
  split
  · rfl
  · split <;> rfl

theorem checkHash_pos2 (hash : HashFn) (buffer : List Nat) (n : Nat) (s : Shared)
    (h : (digestWord hash buffer &&& 0xffffff00 == 0) = true) :
    checkHash hash buffer n s = { s with second := min s.second n, done := true } := by
  unfold checkHash
  simp [h]

theorem checkHash_pos1 (hash : HashFn) (buffer : List Nat) (n : Nat) (s : Shared)
    (h2 : (digestWord hash buffer &&& 0xffffff00 == 0) = false)
    (h1 : (digestWord hash buffer &&& 0xfffff000 == 0) = true) :
    checkHash hash buffer n s = { s with first := min s.first n } := by
  unfold checkHash
  simp [h1, h2]

theorem checkHash_neg (hash : HashFn) (buffer : List Nat) (n : Nat) (s : Shared)
    (h2 : (digestWord hash buffer &&& 0xffffff00 == 0) = false)
    (h1 : (digestWord hash buffer &&& 0xfffff000 == 0) = false) :
    checkHash hash buffer n s = s := by
  unfold checkHash
  simp [h1, h2]

/-! ### Characterization of sequential candidate processing -/

theorem foldCheck_eq (hash : HashFn) :
    ∀ (l : List Nat) (s : Shared),
      foldCheck hash l s =
        { secret := s.secret,
          done := s.done || l.any (fun n => tier2B hash s.secret n),
          counter := s.counter,
          first := (l.filter (fun n => tier1onlyB hash s.secret n)).foldl min s.first,
          second := (l.filter (fun n => tier2B hash s.secret n)).foldl min s.second } := by
  intro l
  induction l with
  | nil =>
    intro s
    simp only [foldCheck, List.foldl_nil, List.any_nil, Bool.or_false, List.filter_nil,
      List.foldl_nil]
  | cons a l ih =>
    intro s
    have hstep : foldCheck hash (a :: l) s =
        foldCheck hash l (checkHash hash (encode s.secret a) a s) := rfl
    rw [hstep, ih (checkHash hash (encode s.secret a) a s)]
    by_cases h2 : tier2B hash s.secret a = true
    · have h2' : (digestWord hash (encode s.secret a) &&& 0xffffff00 == 0) = true := h2
      rw [checkHash_pos2 hash _ a s h2']
      have ht1 : tier1onlyB hash s.secret a = false := by
        simp [tier1onlyB, h2]
      simp [List.any_cons, List.filter_cons, h2, ht1]
    · have h2f : tier2B hash s.secret a = false := by
        cases e : tier2B hash s.secret a
        · rfl
        · exact absurd e h2
      have h2' : (digestWord hash (encode s.secret a) &&& 0xffffff00 == 0) = false := h2f
      by_cases h1 : tier1B hash s.secret a = true
      · have h1' : (digestWord hash (encode s.secret a) &&& 0xfffff000 == 0) = true := h1
        rw [checkHash_pos1 hash _ a s h2' h1']
        have ht1 : tier1onlyB hash s.secret a = true := by
          simp [tier1onlyB, h2f, h1]
        simp [List.any_cons, List.filter_cons, h2f, ht1]
      · have h1f : tier1B hash s.secret a = false := by
          cases e : tier1B hash s.secret a
          · rfl
          · exact absurd e h1
        have h1' : (digestWord hash (encode s.secret a) &&& 0xfffff000 == 0) = false := h1f
        rw [checkHash_neg hash _ a s h2' h1']
        have ht1 : tier1onlyB hash s.secret a = false := by
          simp [tier1onlyB, h1f]
        simp [List.any_cons, List.filter_cons, h2f, ht1]

theorem foldCheck_secret (hash : HashFn) (l : List Nat) (s : Shared) :
    (foldCheck hash l s).secret = s.secret := by
  rw [foldCheck_eq]

theorem foldCheck_counter (hash : HashFn) (l : List Nat) (s : Shared) :
    (foldCheck hash l s).counter = s.counter := by
  rw [foldCheck_eq]

theorem foldCheck_append (hash : HashFn) (l₁ l₂ : List Nat) (s : Shared) :
    foldCheck hash (l₁ ++ l₂) s = foldCheck hash l₂ (foldCheck hash l₁ s) := by
  simp [foldCheck, List.foldl_append]

/-! ### The fast-path encoder -/

theorem encode_block (p : List Nat) (q m : Nat) (hq : 1 ≤ q) (hm : m < 1000) :
    encode p (1000 * q + m) =
      (p ++ asciiDigits q) ++ [48 + m / 100, 48 + m / 10 % 10, 48 + m % 10] := by
  simp [encode, asciiDigits_block q m hq hm]

theorem encode_block_length (p : List Nat) (q : Nat) (hq : 1 ≤ q) :
    (encode p (1000 * q)).length - 3 = (p ++ asciiDigits q).length := by
  have h := encode_block p q 0 hq (by omega)
  rw [Nat.add_zero] at h
  rw [h]
  simp only [List.length_append, List.length_cons, List.length_nil]
  omega

theorem updateDigits_encode (p : List Nat) (q m n : Nat) (hq : 1 ≤ q) (hm : m < 1000)
    (hn : n < 1000) :
    updateDigits (encode p (1000 * q + m)) ((encode p (1000 * q)).length - 3) n =
      encode p (1000 * q + n) := by
  rw [encode_block_length p q hq, encode_block p q m hq hm, encode_block p q n hq hn]
  unfold updateDigits
  rw [List.set_append_right _ _ (Nat.le_refl _), Nat.sub_self]
  rw [List.set_append_right _ _ (by omega), Nat.add_sub_cancel_left]
  rw [List.set_append_right _ _ (by omega)]
  have h2 : (p ++ asciiDigits q).length + 2 - (p ++ asciiDigits q).length = 2 := by omega
  rw [h2]
  rfl

/-! ### One worker block -/

theorem blockState_spec (hash : HashFn) (q : Nat) (s : Shared) (hq : 1 ≤ q)
    (hov : 1000 * q + 1000 ≤ 4294967296) :
    ∀ j, j ≤ 1000 →
      blockState hash (1000 * q) s j =
        (encode s.secret (1000 * q + (j - 1)),
          foldCheck hash (List.range' (1000 * q) j) s) := by
  intro j
  induction j with
  | zero =>
    intro _
    simp [blockState, foldCheck]
  | succ j ih =>
    intro hj
    have hj' : j ≤ 1000 := by omega
    have hstep : blockState hash (1000 * q) s (j + 1) =
        (updateDigits (blockState hash (1000 * q) s j).1
            ((encode s.secret (1000 * q)).length - 3) j,
          checkHash hash
            (updateDigits (blockState hash (1000 * q) s j).1
              ((encode s.secret (1000 * q)).length - 3) j)
            ((1000 * q + j) % 4294967296) (blockState hash (1000 * q) s j).2) := by
      simp only [blockState]
      rw [List.range_succ, List.foldl_append, List.foldl_cons, List.foldl_nil]
    rw [hstep, ih hj']
    have hm : j - 1 < 1000 := by omega
    have hn : j < 1000 := by omega
    have hbuf :
        updateDigits (encode s.secret (1000 * q + (j - 1)))
            ((encode s.secret (1000 * q)).length - 3) j =
          encode s.secret (1000 * q + j) :=
      updateDigits_encode s.secret q (j - 1) j hq hm hn
    have hmod : (1000 * q + j) % 4294967296 = 1000 * q + j :=
      Nat.mod_eq_of_lt (by omega)
    have hcand : j + 1 - 1 = j := by omega
    rw [hbuf, hmod, hcand]
    have hrange : List.range' (1000 * q) (j + 1) =
        List.range' (1000 * q) j ++ [1000 * q + j] := List.range'_1_concat _ _
    rw [hrange, foldCheck_append]
    have hsec : (foldCheck hash (List.range' (1000 * q) j) s).secret = s.secret :=
      foldCheck_secret hash _ s
    show _ = (_, foldCheck hash [1000 * q + j] (foldCheck hash (List.range' (1000 * q) j) s))
    simp only [foldCheck] at hsec ⊢
    simp only [List.foldl_cons, List.foldl_nil, hsec]

theorem workerBlock_eq (hash : HashFn) (q : Nat) (s : Shared) (hq : 1 ≤ q)
    (hov : 1000 * q + 1000 ≤ 4294967296) :
    workerBlock hash (1000 * q) s = foldCheck hash (List.range' (1000 * q) 1000) s := by
  unfold workerBlock
  rw [blockState_spec hash q s hq hov 1000 (Nat.le_refl 1000)]

theorem blockState_step (hash : HashFn) (offset : Nat) (s : Shared) (j : Nat) :
    blockState hash offset s (j + 1) =
      (updateDigits (blockState hash offset s j).1
          ((encode s.secret offset).length - 3) j,
        checkHash hash
          (updateDigits (blockState hash offset s j).1
            ((encode s.secret offset).length - 3) j)
          ((offset + j) % 4294967296) (blockState hash offset s j).2) := by
  simp only [blockState]
  rw [List.range_succ, List.foldl_append, List.foldl_cons, List.foldl_nil]

theorem blockState_counter (hash : HashFn) (offset : Nat) (s : Shared) :
    ∀ j, (blockState hash offset s j).2.counter = s.counter := by
  intro j
  induction j with
  | zero => rfl
  | succ j ih => rw [blockState_step, checkHash_counter]; exact ih

theorem blockState_secret (hash : HashFn) (offset : Nat) (s : Shared) :
    ∀ j, (blockState hash offset s j).2.secret = s.secret := by
  intro j
  induction j with
  | zero => rfl
  | succ j ih => rw [blockState_step, checkHash_secret]; exact ih

theorem workerBlock_counter (hash : HashFn) (offset : Nat) (s : Shared) :
    (workerBlock hash offset s).counter = s.counter :=
  blockState_counter hash offset s 1000

theorem workerBlock_secret (hash : HashFn) (offset : Nat) (s : Shared) :
    (workerBlock hash offset s).secret = s.secret :=
  blockState_secret hash offset s 1000

/-! ### The whole run -/

theorem searchRun_zero (hash : HashFn) (secret : List Nat) :
    searchRun hash secret 0 = prologue hash (initShared secret) := by
  simp only [searchRun, List.range_zero, List.foldl_nil]

theorem searchRun_succ (hash : HashFn) (secret : List Nat) (k : Nat) :
    searchRun hash secret (k + 1) = runStep hash (searchRun hash secret k) := by
  unfold searchRun
  rw [List.range_succ, List.foldl_append, List.foldl_cons, List.foldl_nil]

theorem runStep_eq (hash : HashFn) (s : Shared) :
    runStep hash s =
      workerBlock hash s.counter { s with counter := (s.counter + 1000) % 4294967296 } := rfl

theorem searchRun_counter (hash : HashFn) (secret : List Nat) :
    ∀ k, (searchRun hash secret k).counter = (1000 + 1000 * k) % 4294967296 := by
  intro k
  induction k with
  | zero =>
    rw [searchRun_zero]
    unfold prologue
    rw [foldCheck_counter]
    show (1000 : Nat) = (1000 + 1000 * 0) % 4294967296
    rfl
  | succ k ih =>
    rw [searchRun_succ, runStep_eq, workerBlock_counter]
    show ((searchRun hash secret k).counter + 1000) % 4294967296 = _
    rw [ih]
    omega

theorem searchRun_secret (hash : HashFn) (secret : List Nat) :
    ∀ k, (searchRun hash secret k).secret = secret := by
  intro k
  induction k with
  | zero =>
    rw [searchRun_zero]
    unfold prologue
    rw [foldCheck_secret]
    rfl
  | succ k ih =>
    rw [searchRun_succ, runStep_eq, workerBlock_secret]
    exact ih

/-- The final shared state of a run with `k` claimed blocks, absent counter
overflow: the candidates examined are exactly `1, …, 1000 * (k + 1) - 1`,
`done` records whether any of them is a tier-2 hit, and `first` / `second`
are the running minima over tier-1-only respectively tier-2 hits. -/
theorem searchRun_eq (hash : HashFn) (secret : List Nat) :
    ∀ k, 1000 * (k + 1) < 4294967296 →
      searchRun hash secret k =
        { secret := secret,
          done := (List.range' 1 (999 + 1000 * k)).any (fun n => tier2B hash secret n),
          counter := 1000 * (k + 1),
          first := ((List.range' 1 (999 + 1000 * k)).filter
              (fun n => tier1onlyB hash secret n)).foldl min 4294967295,
          second := ((List.range' 1 (999 + 1000 * k)).filter
              (fun n => tier2B hash secret n)).foldl min 4294967295 } := by
  intro k
  induction k with
  | zero =>
    intro _
    rw [searchRun_zero]
    unfold prologue
    rw [foldCheck_eq]
    simp [initShared]
  | succ k ih =>
    intro hov
    have hov' : 1000 * (k + 1) < 4294967296 := by omega
    rw [searchRun_succ, ih hov', runStep_eq]
    simp only
    have hmod : (1000 * (k + 1) + 1000) % 4294967296 = 1000 * (k + 1) + 1000 := by omega
    rw [hmod]
    rw [workerBlock_eq hash (k + 1) _ (by omega) (by omega)]
    rw [foldCheck_eq]
    simp only
    have hsplit := List.range'_append_1 1 (999 + 1000 * k) 1000
    have e1 : 1 + (999 + 1000 * k) = 1000 * (k + 1) := by omega
    have e2 : 1000 + (999 + 1000 * k) = 999 + 1000 * (k + 1) := by omega
    rw [e1, e2] at hsplit
    rw [← hsplit]
    simp only [List.any_append, List.filter_append, List.foldl_append]
    have e3 : 1000 * (k + 1) + 1000 = 1000 * (k + 1 + 1) := by omega
    rw [e3]

/-! ### Folded minima -/

theorem foldl_min_le_init (l : List Nat) : ∀ a : Nat, l.foldl min a ≤ a := by
  induction l with
  | nil => intro a; exact Nat.le_refl a
  | cons b l ih =>
    intro a
    calc (b :: l).foldl min a = l.foldl min (min a b) := rfl
    _ ≤ min a b := ih (min a b)
    _ ≤ a := Nat.min_le_left a b

theorem foldl_min_le_mem (l : List Nat) : ∀ a x : Nat, x ∈ l → l.foldl min a ≤ x := by
  induction l with
  | nil => intro a x hx; cases hx
  | cons b l ih =>
    intro a x hx
    rcases List.mem_cons.mp hx with rfl | hx
    · calc (x :: l).foldl min a = l.foldl min (min a x) := rfl
      _ ≤ min a x := foldl_min_le_init l (min a x)
      _ ≤ x := Nat.min_le_right a x
    · exact ih (min a b) x hx

theorem foldl_min_eq_init_or_mem (l : List Nat) :
    ∀ a : Nat, l.foldl min a = a ∨ l.foldl min a ∈ l := by
  induction l with
  | nil => intro a; exact Or.inl rfl
  | cons b l ih =>
    intro a
    have hgoal : (b :: l).foldl min a = l.foldl min (min a b) := rfl
    rw [hgoal]
    rcases ih (min a b) with h | h
    · rw [h]
      rcases Nat.le_total a b with hab | hab
      · rw [Nat.min_eq_left hab]; exact Or.inl rfl
      · rw [Nat.min_eq_right hab]; exact Or.inr (List.mem_cons_self b l)
    · exact Or.inr (List.mem_cons_of_mem b h)

theorem mem_range'_iff (s len m : Nat) : m ∈ List.range' s len ↔ s ≤ m ∧ m < s + len := by
  rw [List.mem_range']
  constructor
  · rintro ⟨i, hi, rfl⟩; omega
  · intro h; exact ⟨m - s, by omega, by omega⟩

/-! ### Final values of a run -/

theorem searchRun_done_iff (hash : HashFn) (secret : List Nat) (k : Nat)
    (hov : 1000 * (k + 1) < 4294967296) :
    (searchRun hash secret k).done = true ↔
      ∃ n, 1 ≤ n ∧ n < 1000 * (k + 1) ∧ tier2B hash secret n = true := by
  rw [searchRun_eq hash secret k hov]
  show (List.range' 1 (999 + 1000 * k)).any (fun n => tier2B hash secret n) = true ↔ _
  rw [List.any_eq_true]
  constructor
  · rintro ⟨n, hn, ht⟩
    rw [mem_range'_iff] at hn
    exact ⟨n, by omega, by omega, ht⟩
  · rintro ⟨n, h1, h2, ht⟩
    exact ⟨n, (mem_range'_iff 1 (999 + 1000 * k) n).mpr ⟨h1, by omega⟩, ht⟩

theorem searchRun_second_le (hash : HashFn) (secret : List Nat) (k : Nat)
    (hov : 1000 * (k + 1) < 4294967296) (m : Nat) (h1 : 1 ≤ m) (h2 : m < 1000 * (k + 1))
    (ht : tier2B hash secret m = true) :
    (searchRun hash secret k).second ≤ m := by
  rw [searchRun_eq hash secret k hov]
  show ((List.range' 1 (999 + 1000 * k)).filter
      (fun n => tier2B hash secret n)).foldl min 4294967295 ≤ m
  apply foldl_min_le_mem
  rw [List.mem_filter, mem_range'_iff]
  exact ⟨⟨h1, by omega⟩, ht⟩

theorem searchRun_second_mem (hash : HashFn) (secret : List Nat) (k : Nat)
    (hov : 1000 * (k + 1) < 4294967296)
    (hne : (searchRun hash secret k).second ≠ 4294967295) :
    1 ≤ (searchRun hash secret k).second ∧
      (searchRun hash secret k).second < 1000 * (k + 1) ∧
      tier2B hash secret ((searchRun hash secret k).second) = true := by
  rw [searchRun_eq hash secret k hov] at hne ⊢
  dsimp only at hne ⊢
  rcases foldl_min_eq_init_or_mem
      ((List.range' 1 (999 + 1000 * k)).filter (fun n => tier2B hash secret n)) 4294967295
    with h | h
  · exact absurd h hne
  · rw [List.mem_filter, mem_range'_iff] at h
    exact ⟨h.1.1, by omega, h.2⟩

theorem searchRun_first_le (hash : HashFn) (secret : List Nat) (k : Nat)
    (hov : 1000 * (k + 1) < 4294967296) (m : Nat) (h1 : 1 ≤ m) (h2 : m < 1000 * (k + 1))
    (ht : tier1onlyB hash secret m = true) :
    (searchRun hash secret k).first ≤ m := by
  rw [searchRun_eq hash secret k hov]
  show ((List.range' 1 (999 + 1000 * k)).filter
      (fun n => tier1onlyB hash secret n)).foldl min 4294967295 ≤ m
  apply foldl_min_le_mem
  rw [List.mem_filter, mem_range'_iff]
  exact ⟨⟨h1, by omega⟩, ht⟩

theorem searchRun_first_mem (hash : HashFn) (secret : List Nat) (k : Nat)
    (hov : 1000 * (k + 1) < 4294967296)
    (hne : (searchRun hash secret k).first ≠ 4294967295) :
    1 ≤ (searchRun hash secret k).first ∧
      (searchRun hash secret k).first < 1000 * (k + 1) ∧
      tier1onlyB hash secret ((searchRun hash secret k).first) = true := by
  rw [searchRun_eq hash secret k hov] at hne ⊢
  dsimp only at hne ⊢
  rcases foldl_min_eq_init_or_mem
      ((List.range' 1 (999 + 1000 * k)).filter (fun n => tier1onlyB hash secret n)) 4294967295
    with h | h
  · exact absurd h hne
  · rw [List.mem_filter, mem_range'_iff] at h
    exact ⟨h.1.1, by omega, h.2⟩

theorem searchRun_done_second (hash : HashFn) (secret : List Nat) (k : Nat)
    (hov : 1000 * (k + 1) < 4294967296)
    (hdone : (searchRun hash secret k).done = true) :
    (searchRun hash secret k).second ≠ 4294967295 := by
  obtain ⟨n, h1, h2, ht⟩ := (searchRun_done_iff hash secret k hov).mp hdone
  have hle := searchRun_second_le hash secret k hov n h1 h2 ht
  omega

/-! ### Tier classification of the concrete hashes -/

theorem asciiDigits_two : asciiDigits 2 = [50] := rfl

theorem asciiDigits_three : asciiDigits 3 = [51] := rfl

theorem asciiDigits_fiveHundred : asciiDigits 500 = [53, 48, 48] := rfl

theorem asciiDigits_fifteenHundred : asciiDigits 1500 = [49, 53, 48, 48] := rfl

theorem asciiDigits_twentyfiveHundred : asciiDigits 2500 = [50, 53, 48, 48] := rfl

theorem mask2_zero : ((0 : Nat) % 4294967296 &&& 0xffffff00 == 0) = true := by decide

theorem mask1_zero : ((0 : Nat) % 4294967296 &&& 0xfffff000 == 0) = true := by decide

theorem mask2_wk : ((3840 : Nat) % 4294967296 &&& 0xffffff00 == 0) = false := by decide

theorem mask1_wk : ((3840 : Nat) % 4294967296 &&& 0xfffff000 == 0) = true := by decide

theorem mask2_max : ((4294967295 : Nat) % 4294967296 &&& 0xffffff00 == 0) = false := by
  decide

theorem mask1_max : ((4294967295 : Nat) % 4294967296 &&& 0xfffff000 == 0) = false := by
  decide

theorem hashA_val (n : Nat) :
    hashA (asciiDigits n) = if n = 3 then 0 else 4294967295 := by
  unfold hashA
  by_cases h3 : asciiDigits n = [51]
  · have hn : n = 3 := asciiDigits_inj n 3 (h3.trans asciiDigits_three.symm)
    simp [hn, asciiDigits_three]
  · have hn : n ≠ 3 := fun e => h3 (by rw [e]; exact asciiDigits_three)
    simp [h3, hn]

theorem hashB_val (n : Nat) :
    hashB (asciiDigits n) =
      if n = 3 then 0 else if n = 500 then 3840 else 4294967295 := by
  unfold hashB
  by_cases h3 : asciiDigits n = [51]
  · have hn : n = 3 := asciiDigits_inj n 3 (h3.trans asciiDigits_three.symm)
    simp [hn, asciiDigits_three]
  · have hn : n ≠ 3 := fun e => h3 (by rw [e]; exact asciiDigits_three)
    rw [if_neg h3, if_neg hn]
    by_cases h5 : asciiDigits n = [53, 48, 48]
    · have hn5 : n = 500 :=
        asciiDigits_inj n 500 (h5.trans asciiDigits_fiveHundred.symm)
      simp [hn5, asciiDigits_fiveHundred]
    · have hn5 : n ≠ 500 := fun e => h5 (by rw [e]; exact asciiDigits_fiveHundred)
      simp [h5, hn5]

theorem hashC_val (n : Nat) :
    hashC (asciiDigits n) =
      if n = 1500 then 0 else if n = 2500 then 3840 else 4294967295 := by
  unfold hashC
  by_cases h3 : asciiDigits n = [49, 53, 48, 48]
  · have hn : n = 1500 :=
      asciiDigits_inj n 1500 (h3.trans asciiDigits_fifteenHundred.symm)
    simp [hn, asciiDigits_fifteenHundred]
  · have hn : n ≠ 1500 := fun e => h3 (by rw [e]; exact asciiDigits_fifteenHundred)
    rw [if_neg h3, if_neg hn]
    by_cases h5 : asciiDigits n = [50, 53, 48, 48]
    · have hn5 : n = 2500 :=
        asciiDigits_inj n 2500 (h5.trans asciiDigits_twentyfiveHundred.symm)
      simp [hn5, asciiDigits_twentyfiveHundred]
    · have hn5 : n ≠ 2500 := fun e => h5 (by rw [e]; exact asciiDigits_twentyfiveHundred)
      simp [h5, hn5]

theorem hashD_val (n : Nat) :
    hashD (asciiDigits n) =
      if n = 2 then 3840 else if n = 1500 then 0 else 4294967295 := by
  unfold hashD
  by_cases h3 : asciiDigits n = [50]
  · have hn : n = 2 := asciiDigits_inj n 2 (h3.trans asciiDigits_two.symm)
    simp [hn, asciiDigits_two]
  · have hn : n ≠ 2 := fun e => h3 (by rw [e]; exact asciiDigits_two)
    rw [if_neg h3, if_neg hn]
    by_cases h5 : asciiDigits n = [49, 53, 48, 48]
    · have hn5 : n = 1500 :=
        asciiDigits_inj n 1500 (h5.trans asciiDigits_fifteenHundred.symm)
      simp [hn5, asciiDigits_fifteenHundred]
    · have hn5 : n ≠ 1500 := fun e => h5 (by rw [e]; exact asciiDigits_fifteenHundred)
      simp [h5, hn5]

theorem hashA_t2 (n : Nat) : tier2B hashA [] n = true ↔ n = 3 := by
  simp only [tier2B, digestWord, encode_nil, hashA_val]
  by_cases h : n = 3
  · simp only [if_pos h, mask2_zero, h]
    simp [mask2_zero]
  · simp only [if_neg h, mask2_max]
    simp [h]

theorem hashA_t1only (n : Nat) : tier1onlyB hashA [] n = false := by
  simp only [tier1onlyB, tier1B, tier2B, digestWord, encode_nil, hashA_val]
  by_cases h : n = 3
  · simp only [if_pos h, mask2_zero, mask1_zero]
    rfl
  · simp only [if_neg h, mask2_max, mask1_max]
    rfl

theorem hashB_t2 (n : Nat) : tier2B hashB [] n = true ↔ n = 3 := by
  simp only [tier2B, digestWord, encode_nil, hashB_val]
  by_cases h3 : n = 3
  · simp only [if_pos h3, mask2_zero, h3]
    simp [mask2_zero]
  · by_cases h5 : n = 500
    · simp only [if_neg h3, if_pos h5, mask2_wk]
      simp [h3]
    · simp only [if_neg h3, if_neg h5, mask2_max]
      simp [h3]

theorem hashB_t1only (n : Nat) : tier1onlyB hashB [] n = true ↔ n = 500 := by
  simp only [tier1onlyB, tier1B, tier2B, digestWord, encode_nil, hashB_val]
  by_cases h3 : n = 3
  · simp only [if_pos h3, mask2_zero, mask1_zero]
    simp [h3]
  · by_cases h5 : n = 500
    · simp only [if_neg h3, if_pos h5, mask2_wk, mask1_wk]
      simp [h5]
    · simp only [if_neg h3, if_neg h5, mask2_max, mask1_max]
      simp [h5]

theorem hashC_t2 (n : Nat) : tier2B hashC [] n = true ↔ n = 1500 := by
  simp only [tier2B, digestWord, encode_nil, hashC_val]
  by_cases h3 : n = 1500
  · simp only [if_pos h3, mask2_zero, h3]
    simp [mask2_zero]
  · by_cases h5 : n = 2500
    · simp only [if_neg h3, if_pos h5, mask2_wk]
      simp [h3]
    · simp only [if_neg h3, if_neg h5, mask2_max]
      simp [h3]

theorem hashC_t1only (n : Nat) : tier1onlyB hashC [] n = true ↔ n = 2500 := by
  simp only [tier1onlyB, tier1B, tier2B, digestWord, encode_nil, hashC_val]
  by_cases h3 : n = 1500
  · simp only [if_pos h3, mask2_zero, mask1_zero]
    simp [h3]
  · by_cases h5 : n = 2500
    · simp only [if_neg h3, if_pos h5, mask2_wk, mask1_wk]
      simp [h5]
    · simp only [if_neg h3, if_neg h5, mask2_max, mask1_max]
      simp [h5]

theorem hashD_t2 (n : Nat) : tier2B hashD [] n = true ↔ n = 1500 := by
  simp only [tier2B, digestWord, encode_nil, hashD_val]
  by_cases h3 : n = 2
  · have : n ≠ 1500 := by omega
    simp only [if_pos h3, mask2_wk]
    simp [this]
  · by_cases h5 : n = 1500
    · simp only [if_neg h3, if_pos h5, mask2_zero, h5]
      simp [mask2_zero, show (1500 : Nat) ≠ 2 by omega]
    · simp only [if_neg h3, if_neg h5, mask2_max]
      simp [h5]

theorem hashD_t1only (n : Nat) : tier1onlyB hashD [] n = true ↔ n = 2 := by
  simp only [tier1onlyB, tier1B, tier2B, digestWord, encode_nil, hashD_val]
  by_cases h3 : n = 2
  · simp only [if_pos h3, mask2_wk, mask1_wk]
    simp [h3]
  · by_cases h5 : n = 1500
    · simp only [if_neg h3, if_pos h5, mask2_zero, mask1_zero]
      simp [h3]
    · simp only [if_neg h3, if_neg h5, mask2_max, mask1_max]
      simp [h3]

theorem hashNone_t2 (secret : List Nat) (n : Nat) : tier2B hashNone secret n = false := by
  simp only [tier2B, digestWord, hashNone, mask2_max]

theorem hashNone_t1only (secret : List Nat) (n : Nat) :
    tier1onlyB hashNone secret n = false := by
  simp only [tier1onlyB, tier1B, tier2B, digestWord, hashNone, mask2_max, mask1_max]
  rfl

/-! ### Trimming -/

theorem dropWhile_idem (p : Char → Bool) (l : List Char) :
    (l.dropWhile p).dropWhile p = l.dropWhile p := by
  induction l with
  | nil => rfl
  | cons a l ih =>
    by_cases h : p a
    · simp [List.dropWhile_cons, h, ih]
    · simp [List.dropWhile_cons, h]

theorem dropWhile_eq_self_of_initial (p : Char → Bool) (l t : List Char)
    (hpre : t <+: l) (hl : l.dropWhile p = l) : t.dropWhile p = t := by
  cases t with
  | nil => rfl
  | cons a r =>
    obtain ⟨u, hu⟩ := hpre
    have hcons : l = a :: (r ++ u) := by rw [← hu]; rfl
    have hpa : p a = false := by
      cases e : p a
      · rfl
      · exfalso
        have hdrop : l.dropWhile p = (r ++ u).dropWhile p := by
          rw [hcons, List.dropWhile_cons, if_pos e]
        have hlen := congrArg List.length hdrop
        rw [hl, hcons] at hlen
        have hle := ((r ++ u).dropWhile_suffix p).length_le
        simp only [List.length_cons] at hlen
        omega
    rw [List.dropWhile_cons, if_neg (by simp [hpa])]

theorem rustTrim_idem (l : List Char) : rustTrim (rustTrim l) = rustTrim l := by
  have ht : (l.dropWhile rustIsWhitespace).dropWhile rustIsWhitespace =
      l.dropWhile rustIsWhitespace := dropWhile_idem rustIsWhitespace l
  have hsuf : (l.dropWhile rustIsWhitespace).reverse.dropWhile rustIsWhitespace <:+
      (l.dropWhile rustIsWhitespace).reverse :=
    List.dropWhile_suffix rustIsWhitespace
  have hpre : rustTrim l <+: l.dropWhile rustIsWhitespace := by
    unfold rustTrim
    conv_rhs => rw [← List.reverse_reverse (l.dropWhile rustIsWhitespace)]
    exact List.reverse_prefix.mpr hsuf
  have h1 : (rustTrim l).dropWhile rustIsWhitespace = rustTrim l :=
    dropWhile_eq_self_of_initial rustIsWhitespace (l.dropWhile rustIsWhitespace)
      (rustTrim l) hpre ht
  show (((rustTrim l).dropWhile rustIsWhitespace).reverse.dropWhile
      rustIsWhitespace).reverse = rustTrim l
  rw [h1]
  have h2 : (rustTrim l).reverse =
      (l.dropWhile rustIsWhitespace).reverse.dropWhile rustIsWhitespace := by
    unfold rustTrim
    rw [List.reverse_reverse]
  rw [h2, dropWhile_idem]
  rfl

/-! ### Concrete runs of the engine -/

theorem hashB_t1_three : tier1B hashB [] 3 = true := by
  simp only [tier1B, digestWord, encode_nil, hashB_val]
  simp [mask1_zero]

theorem runA0_done : (searchRun hashA [] 0).done = true :=
  (searchRun_done_iff hashA [] 0 (by omega)).mpr
    ⟨3, by omega, by omega, (hashA_t2 3).mpr rfl⟩

theorem runB0_done : (searchRun hashB [] 0).done = true :=
  (searchRun_done_iff hashB [] 0 (by omega)).mpr
    ⟨3, by omega, by omega, (hashB_t2 3).mpr rfl⟩

theorem runB0_second : (searchRun hashB [] 0).second = 3 := by
  have hle := searchRun_second_le hashB [] 0 (by omega) 3 (by omega) (by omega)
    ((hashB_t2 3).mpr rfl)
  have hne : (searchRun hashB [] 0).second ≠ 4294967295 := by omega
  obtain ⟨h1, h2, ht⟩ := searchRun_second_mem hashB [] 0 (by omega) hne
  have heq := (hashB_t2 _).mp ht
  omega

theorem runB0_first : (searchRun hashB [] 0).first = 500 := by
  have hle := searchRun_first_le hashB [] 0 (by omega) 500 (by omega) (by omega)
    ((hashB_t1only 500).mpr rfl)
  have hne : (searchRun hashB [] 0).first ≠ 4294967295 := by omega
  obtain ⟨h1, h2, ht⟩ := searchRun_first_mem hashB [] 0 (by omega) hne
  have heq := (hashB_t1only _).mp ht
  omega

theorem runC1_done : (searchRun hashC [] 1).done = true :=
  (searchRun_done_iff hashC [] 1 (by omega)).mpr
    ⟨1500, by omega, by omega, (hashC_t2 1500).mpr rfl⟩

theorem runC2_done : (searchRun hashC [] 2).done = true :=
  (searchRun_done_iff hashC [] 2 (by omega)).mpr
    ⟨1500, by omega, by omega, (hashC_t2 1500).mpr rfl⟩

theorem runC1_first : (searchRun hashC [] 1).first = 4294967295 := by
  by_contra hne
  obtain ⟨h1, h2, ht⟩ := searchRun_first_mem hashC [] 1 (by omega) hne
  have heq := (hashC_t1only _).mp ht
  omega

theorem runC2_first : (searchRun hashC [] 2).first = 2500 := by
  have hle := searchRun_first_le hashC [] 2 (by omega) 2500 (by omega) (by omega)
    ((hashC_t1only 2500).mpr rfl)
  have hne : (searchRun hashC [] 2).first ≠ 4294967295 := by omega
  obtain ⟨h1, h2, ht⟩ := searchRun_first_mem hashC [] 2 (by omega) hne
  have heq := (hashC_t1only _).mp ht
  omega

theorem runD1_done : (searchRun hashD [] 1).done = true :=
  (searchRun_done_iff hashD [] 1 (by omega)).mpr
    ⟨1500, by omega, by omega, (hashD_t2 1500).mpr rfl⟩

theorem runD2_done : (searchRun hashD [] 2).done = true :=
  (searchRun_done_iff hashD [] 2 (by omega)).mpr
    ⟨1500, by omega, by omega, (hashD_t2 1500).mpr rfl⟩

theorem runD1_second : (searchRun hashD [] 1).second = 1500 := by
  have hle := searchRun_second_le hashD [] 1 (by omega) 1500 (by omega) (by omega)
    ((hashD_t2 1500).mpr rfl)
  have hne : (searchRun hashD [] 1).second ≠ 4294967295 := by omega
  obtain ⟨h1, h2, ht⟩ := searchRun_second_mem hashD [] 1 (by omega) hne
  have heq := (hashD_t2 _).mp ht
  omega

theorem blockState_buffer (hash : HashFn) (q : Nat) (s : Shared) (hq : 1 ≤ q) :
    ∀ j, j ≤ 1000 →
      (blockState hash (1000 * q) s j).1 = encode s.secret (1000 * q + (j - 1)) := by
  intro j
  induction j with
  | zero =>
    intro _
    simp [blockState]
  | succ j ih =>
    intro hj
    rw [blockState_step, ih (by omega)]
    have hm : j - 1 < 1000 := by omega
    have hn : j < 1000 := by omega
    rw [updateDigits_encode s.secret q (j - 1) j hq hm hn]
    simp

/-! ### The claims -/

/-- C1: for every secret and every complete run (the `done` flag is set when
`parse` returns), as long as the block counter has not overflowed, the
tier-2 answer returned by `part2` is minimal: its digest passes the tier-2
mask (at least six leading zero nibbles) and no positive integer below it
does, regardless of how the worker block claims interleave (any number `k`
of claimed blocks). -/
theorem c1_tier2_minimal (hash : HashFn) (secret : List Nat) (k : Nat)
    (hdone : (searchRun hash secret k).done = true)
    (hov : 1000 * (k + 1) < 4294967296) :
    tier2B hash secret (part2 (searchRun hash secret k)) = true ∧
      ∀ m, 1 ≤ m → m < part2 (searchRun hash secret k) →
        tier2B hash secret m = false := by
  have hne := searchRun_done_second hash secret k hov hdone
  obtain ⟨h1, h2, ht⟩ := searchRun_second_mem hash secret k hov hne
  refine ⟨ht, ?_⟩
  intro m hm1 hm2
  simp only [part2] at hm2
  cases e : tier2B hash secret m
  · rfl
  · have hle := searchRun_second_le hash secret k hov m hm1 (by omega) e
    omega

/-- Witness for C1: with the hash assigning a tier-2 digest to candidate 3
of the empty secret, the run that stops during the prologue returns a
minimal tier-2 answer. -/
theorem c1_tier2_minimal_witness :
    tier2B hashA [] (part2 (searchRun hashA [] 0)) = true ∧
      ∀ m, 1 ≤ m → m < part2 (searchRun hashA [] 0) → tier2B hashA [] m = false :=
  c1_tier2_minimal hashA [] 0 runA0_done (by omega)

/-- Counterexample to C2 as stated: candidate 3 of the empty secret has a
tier-2 digest under `hashA`, and `check_hash` records it at tier 2 and sets
the stop flag, yet leaves `first` at the sentinel instead of lowering it to
`min first 3 = 3` — the `else if` skips the tier-1 update. -/
theorem c2_counterexample :
    (digestWord hashA (encode [] 3) &&& 0xffffff00 == 0) = true ∧
      (checkHash hashA (encode [] 3) 3 (initShared [])).second = 3 ∧
      (checkHash hashA (encode [] 3) 3 (initShared [])).done = true ∧
      (checkHash hashA (encode [] 3) 3 (initShared [])).first = 4294967295 ∧
      (checkHash hashA (encode [] 3) 3 (initShared [])).first ≠
        min (initShared []).first 3 := by
  refine ⟨by decide, by decide, by decide, by decide, by decide⟩

/-- C2 amended: a tier-2-qualifying candidate records tier 2 and signals
stop but does not touch `first`; `first` is lowered exactly when the digest
meets the tier-1 mask without meeting the tier-2 mask, and otherwise the
state is unchanged. -/
theorem c2_checkHash_branches (hash : HashFn) (buffer : List Nat) (n : Nat) (s : Shared) :
    ((digestWord hash buffer &&& 0xffffff00 == 0) = true →
        checkHash hash buffer n s = { s with second := min s.second n, done := true }) ∧
      ((digestWord hash buffer &&& 0xffffff00 == 0) = false →
        (digestWord hash buffer &&& 0xfffff000 == 0) = true →
        checkHash hash buffer n s = { s with first := min s.first n }) ∧
      ((digestWord hash buffer &&& 0xffffff00 == 0) = false →
        (digestWord hash buffer &&& 0xfffff000 == 0) = false →
        checkHash hash buffer n s = s) :=
  ⟨checkHash_pos2 hash buffer n s, checkHash_pos1 hash buffer n s,
    checkHash_neg hash buffer n s⟩

/-- Witness for the amended C2 at a concrete tier-2 hit. -/
theorem c2_witness :
    checkHash hashA (encode [] 3) 3 (initShared []) =
      { initShared [] with second := min (initShared []).second 3, done := true } :=
  (c2_checkHash_branches hashA (encode [] 3) 3 (initShared [])).1 (by decide)

/-- Counterexample to C3 as stated: under `hashB` (tier-2 digest at 3,
tier-1-only digest at 500, empty secret) the prologue already finishes the
search; both answers are known (neither is the sentinel) yet
`part1 = 500 > 3 = part2`, because the tier-2 hit at 3 never lowered
`first`. -/
theorem c3_counterexample :
    (searchRun hashB [] 0).done = true ∧
      part1 (searchRun hashB [] 0) = 500 ∧
      part2 (searchRun hashB [] 0) = 3 ∧
      part1 (searchRun hashB [] 0) ≠ 4294967295 ∧
      part2 (searchRun hashB [] 0) ≠ 4294967295 ∧
      ¬ part1 (searchRun hashB [] 0) ≤ part2 (searchRun hashB [] 0) := by
  have hf : part1 (searchRun hashB [] 0) = 500 := by rw [part1, runB0_first]
  have hs : part2 (searchRun hashB [] 0) = 3 := by rw [part2, runB0_second]
  refine ⟨runB0_done, hf, hs, ?_, ?_, ?_⟩ <;> simp only [hf, hs] <;> omega

/-- C3 amended: `part1 ≤ part2` does hold whenever some candidate at most
`part2` meets the tier-1 threshold while missing the tier-2 threshold; in
general (when every qualifying candidate below the stop point is a tier-2
hit) `part1` can exceed `part2` or stay unknown. -/
theorem c3_first_le_second (hash : HashFn) (secret : List Nat) (k : Nat)
    (hdone : (searchRun hash secret k).done = true)
    (hov : 1000 * (k + 1) < 4294967296)
    (n : Nat) (h1 : 1 ≤ n) (h2 : n ≤ part2 (searchRun hash secret k))
    (ht : tier1onlyB hash secret n = true) :
    part1 (searchRun hash secret k) ≤ part2 (searchRun hash secret k) := by
  have hne := searchRun_done_second hash secret k hov hdone
  obtain ⟨hs1, hs2, _⟩ := searchRun_second_mem hash secret k hov hne
  simp only [part1, part2] at *
  have hfle := searchRun_first_le hash secret k hov n h1 (by omega) ht
  omega

/-- Witness for the amended C3: under `hashD` candidate 2 is tier-1-only
and at most `part2 = 1500`, so `part1 ≤ part2`. -/
theorem c3_witness : part1 (searchRun hashD [] 1) ≤ part2 (searchRun hashD [] 1) :=
  c3_first_le_second hashD [] 1 runD1_done (by omega) 2 (by omega)
    (by rw [part2, runD1_second]; omega)
    ((hashD_t1only 2).mpr rfl)

/-- Counterexample to C4 as stated: under `hashB` the search completes with
`part1 = 500`, but candidate `3 < 500` also meets the tier-1 threshold
(its digest has six leading zero nibbles, hence also five) — so `part1` is
not minimal among tier-1-qualifying candidates. -/
theorem c4_counterexample :
    (searchRun hashB [] 0).done = true ∧
      tier1B hashB [] 3 = true ∧
      3 < part1 (searchRun hashB [] 0) ∧
      ¬ (∀ m, 1 ≤ m → m < part1 (searchRun hashB [] 0) →
          tier1B hashB [] m = false) := by
  have hf : part1 (searchRun hashB [] 0) = 500 := by rw [part1, runB0_first]
  refine ⟨runB0_done, hashB_t1_three, by rw [hf]; omega, fun hall => ?_⟩
  have h3 := hall 3 (by omega) (by rw [hf]; omega)
  rw [hashB_t1_three] at h3
  exact Bool.noConfusion h3

/-- C4 amended: when `part1` is not the sentinel, it meets the tier-1
threshold but not the tier-2 threshold, and no smaller positive integer
meets the tier-1 threshold while missing the tier-2 threshold (candidates
taking the `else if` branch); tier-2 hits below `part1` are possible. -/
theorem c4_part1_minimal_amended (hash : HashFn) (secret : List Nat) (k : Nat)
    (hov : 1000 * (k + 1) < 4294967296)
    (hne : part1 (searchRun hash secret k) ≠ 4294967295) :
    tier1B hash secret (part1 (searchRun hash secret k)) = true ∧
      tier2B hash secret (part1 (searchRun hash secret k)) = false ∧
      ∀ m, 1 ≤ m → m < part1 (searchRun hash secret k) →
        tier1onlyB hash secret m = false := by
  simp only [part1] at hne ⊢
  obtain ⟨h1, h2, ht⟩ := searchRun_first_mem hash secret k hov hne
  rw [tier1onlyB, Bool.and_eq_true, Bool.not_eq_eq_eq_not, Bool.not_true] at ht
  refine ⟨ht.2, ht.1, ?_⟩
  intro m hm1 hm2
  cases e : tier1onlyB hash secret m
  · rfl
  · have hle := searchRun_first_le hash secret k hov m hm1 (by omega) e
    omega

/-- Witness for the amended C4 under `hashB`, where `part1 = 500`. -/
theorem c4_witness :
    tier1B hashB [] (part1 (searchRun hashB [] 0)) = true ∧
      tier2B hashB [] (part1 (searchRun hashB [] 0)) = false ∧
      ∀ m, 1 ≤ m → m < part1 (searchRun hashB [] 0) →
        tier1onlyB hashB [] m = false :=
  c4_part1_minimal_amended hashB [] 0 (by omega)
    (by rw [part1, runB0_first]; omega)

/-- Counterexample to C5 as stated: under `hashC` (tier-2 digest at 1500,
tier-1-only digest at 2500, empty secret) both the run that claims one
block and the run that claims two blocks are complete — both schedules are
realizable with two workers — yet they disagree on `part1` (sentinel versus
2500), so the answer pair is not independent of the interleaving. -/
theorem c5_counterexample :
    (searchRun hashC [] 1).done = true ∧ (searchRun hashC [] 2).done = true ∧
      ¬ (part1 (searchRun hashC [] 1) = part1 (searchRun hashC [] 2) ∧
        part2 (searchRun hashC [] 1) = part2 (searchRun hashC [] 2)) := by
  refine ⟨runC1_done, runC2_done, fun hcon => ?_⟩
  have h1 : part1 (searchRun hashC [] 1) = 4294967295 := by rw [part1, runC1_first]
  have h2 : part1 (searchRun hashC [] 2) = 2500 := by rw [part1, runC2_first]
  have h := hcon.1
  rw [h1, h2] at h
  omega

/-- C5 amended: any two complete runs agree on `part2`; and whenever some
tier-1-only candidate lies strictly below that common `part2`, they agree
on `part1` as well.  (Only the tier-1 answer can depend on the overshoot,
and only when the least tier-1-only candidate lies past the stop point.) -/
theorem c5_determinism_amended (hash : HashFn) (secret : List Nat) (k1 k2 : Nat)
    (hd1 : (searchRun hash secret k1).done = true)
    (hd2 : (searchRun hash secret k2).done = true)
    (hov1 : 1000 * (k1 + 1) < 4294967296)
    (hov2 : 1000 * (k2 + 1) < 4294967296) :
    part2 (searchRun hash secret k1) = part2 (searchRun hash secret k2) ∧
      ∀ n, 1 ≤ n → tier1onlyB hash secret n = true →
        n < part2 (searchRun hash secret k1) →
        part1 (searchRun hash secret k1) = part1 (searchRun hash secret k2) := by
  have hne1 := searchRun_done_second hash secret k1 hov1 hd1
  have hne2 := searchRun_done_second hash secret k2 hov2 hd2
  obtain ⟨ha1, ha2, hat⟩ := searchRun_second_mem hash secret k1 hov1 hne1
  obtain ⟨hb1, hb2, hbt⟩ := searchRun_second_mem hash secret k2 hov2 hne2
  have hsecond : (searchRun hash secret k1).second = (searchRun hash secret k2).second := by
    rcases Nat.lt_trichotomy (searchRun hash secret k1).second
        (searchRun hash secret k2).second with h | h | h
    · have := searchRun_second_le hash secret k2 hov2 _ ha1 (by omega) hat
      omega
    · exact h
    · have := searchRun_second_le hash secret k1 hov1 _ hb1 (by omega) hbt
      omega
  refine ⟨by simp only [part2]; exact hsecond, ?_⟩
  intro n hn1 hnt hnlt
  simp only [part2] at hnlt
  simp only [part1]
  have hf1le := searchRun_first_le hash secret k1 hov1 n hn1 (by omega) hnt
  have hf1ne : (searchRun hash secret k1).first ≠ 4294967295 := by omega
  obtain ⟨hc1, hc2, hct⟩ := searchRun_first_mem hash secret k1 hov1 hf1ne
  have hf2le := searchRun_first_le hash secret k2 hov2 _ hc1
    (by rw [hsecond] at hnlt; omega) hct
  have hf2ne : (searchRun hash secret k2).first ≠ 4294967295 := by omega
  obtain ⟨hd1m, hd2m, hdt⟩ := searchRun_first_mem hash secret k2 hov2 hf2ne
  have hf1le2 := searchRun_first_le hash secret k1 hov1 _ hd1m (by omega) hdt
  omega

/-- Witness for the amended C5: under `hashD` the one-block and two-block
complete runs agree on both answers. -/
theorem c5_witness :
    part2 (searchRun hashD [] 1) = part2 (searchRun hashD [] 2) ∧
      part1 (searchRun hashD [] 1) = part1 (searchRun hashD [] 2) :=
  ⟨(c5_determinism_amended hashD [] 1 2 runD1_done runD2_done (by omega) (by omega)).1,
    (c5_determinism_amended hashD [] 1 2 runD1_done runD2_done (by omega) (by omega)).2
      2 (by omega) ((hashD_t1only 2).mpr rfl)
      (by rw [part2, runD1_second]; omega)⟩

/-- Counterexample to C6 as stated: `fetch_add` on the block counter does
not abort when the next offset would pass `u32::MAX`; at a counter of
4294966400 a claim of 1000 silently wraps the counter to 104 instead of
producing 4294967400 or failing. -/
theorem c6_counterexample :
    (claimBlock nearOverflowState 1000).2.counter = 104 ∧
      ¬ (claimBlock nearOverflowState 1000).2.counter = 4294966400 + 1000 := by
  refine ⟨by decide, by decide⟩

/-- C6 amended: the search never aborts on candidate-space exhaustion;
`claim_block` always succeeds, wrapping the counter modulo `2^32` exactly
like `AtomicU32::fetch_add`, and after `k` claims the counter is
`(1000 + 1000·k) mod 2^32` for every `k`, overflowed or not. -/
theorem c6_counter_wraps (hash : HashFn) (secret : List Nat) (k : Nat) :
    (∀ s size, claimBlock s size =
        (s.counter, { s with counter := (s.counter + size) % 4294967296 })) ∧
      (searchRun hash secret k).counter = (1000 + 1000 * k) % 4294967296 :=
  ⟨fun _ _ => rfl, searchRun_counter hash secret k⟩

/-- C7: absent counter overflow, block claims never overlap: the `j`-th
claim returns start offset `1000 · (j + 1)`, the returned ranges of length
1000 are pairwise disjoint, they contiguously cover `[1000, final counter)`,
and the counter only increases. -/
theorem c7_claims_disjoint_cover (hash : HashFn) (secret : List Nat) (k : Nat)
    (hov : 1000 * (k + 1) < 4294967296) :
    (∀ j, j ≤ k → (searchRun hash secret j).counter = 1000 * (j + 1)) ∧
      (∀ i j, i < j → j < k →
        (searchRun hash secret i).counter + 1000 ≤ (searchRun hash secret j).counter) ∧
      (∀ m, (1000 ≤ m ∧ m < (searchRun hash secret k).counter) ↔
        ∃ j, j < k ∧ (searchRun hash secret j).counter ≤ m ∧
          m < (searchRun hash secret j).counter + 1000) ∧
      (∀ i j, i ≤ j → j ≤ k →
        (searchRun hash secret i).counter ≤ (searchRun hash secret j).counter) := by
  have hc : ∀ j, j ≤ k → (searchRun hash secret j).counter = 1000 * (j + 1) := by
    intro j hj
    rw [searchRun_counter]
    omega
  refine ⟨hc, ?_, ?_, ?_⟩
  · intro i j hij hjk
    rw [hc i (by omega), hc j (by omega)]
    omega
  · intro m
    rw [hc k (Nat.le_refl k)]
    constructor
    · rintro ⟨hm1, hm2⟩
      refine ⟨m / 1000 - 1, by omega, ?_, ?_⟩ <;> rw [hc (m / 1000 - 1) (by omega)] <;> omega
    · rintro ⟨j, hj, hle, hlt⟩
      rw [hc j (by omega)] at hle hlt
      omega
  · intro i j hij hjk
    rw [hc i (by omega), hc j (by omega)]
    omega

/-- Witness for C7: in a two-block run the second claim starts at 2000. -/
theorem c7_witness : (searchRun hashNone [] 1).counter = 1000 * (1 + 1) :=
  (c7_claims_disjoint_cover hashNone [] 2 (by omega)).1 1 (by omega)

/-- C8: for a claimed block start `1000 · q` (a multiple of 1000, at least
1000) and every `n < 1000`, the worker's reusable buffer after rewriting
its last three digit positions for candidate `n` equals the secret prefix
followed by the decimal ASCII representation of `offset + n` — the
incremental fast path agrees with general-form encoding. -/
theorem c8_fast_path_encoding (hash : HashFn) (q n : Nat) (s : Shared)
    (hq : 1 ≤ q) (hn : n < 1000) :
    (blockState hash (1000 * q) s (n + 1)).1 = encode s.secret (1000 * q + n) := by
  have h := blockState_buffer hash q s hq (n + 1) (by omega)
  simpa using h

/-- Witness for C8: the buffer for the last candidate of the first block. -/
theorem c8_witness :
    (blockState hashNone (1000 * 1) (initShared []) (999 + 1)).1 =
      encode (initShared []).secret (1000 * 1 + 999) :=
  c8_fast_path_encoding hashNone 1 999 (initShared []) (by omega) (by omega)

/-- C9: `parse` operates on the whitespace-trimmed secret: for every input
text, the search — and hence the whole answer pair — is identical to the
search on the pre-trimmed text. -/
theorem c9_parse_trims (hash : HashFn) (input : List Char) (k : Nat) :
    parseModel hash input k = parseModel hash (rustTrim input) k ∧
      part1 (parseModel hash input k) = part1 (parseModel hash (rustTrim input) k) ∧
      part2 (parseModel hash input k) = part2 (parseModel hash (rustTrim input) k) := by
  have h : parseModel hash input k = parseModel hash (rustTrim input) k := by
    unfold parseModel
    rw [rustTrim_idem]
  exact ⟨h, by rw [h], by rw [h]⟩

/-- C10: the unknown sentinel is concretely `u32::MAX = 4294967295` — both
minima start there — and it escapes through the public interface: when no
examined candidate takes the tier-1 branch, `part1` returns 4294967295
rather than an error or option, and likewise for `part2` when no candidate
meets the tier-2 threshold. -/
theorem c10_sentinel_escapes (hash : HashFn) (secret : List Nat) (k : Nat)
    (hov : 1000 * (k + 1) < 4294967296) :
    (initShared secret).first = 4294967295 ∧
      (initShared secret).second = 4294967295 ∧
      ((∀ m, m < 1000 * (k + 1) → 1 ≤ m → tier1onlyB hash secret m = false) →
        part1 (searchRun hash secret k) = 4294967295) ∧
      ((∀ m, m < 1000 * (k + 1) → 1 ≤ m → tier2B hash secret m = false) →
        part2 (searchRun hash secret k) = 4294967295) := by
  refine ⟨rfl, rfl, ?_, ?_⟩
  · intro hall
    simp only [part1]
    rw [searchRun_eq hash secret k hov]
    dsimp only
    have hfilter : (List.range' 1 (999 + 1000 * k)).filter
        (fun n => tier1onlyB hash secret n) = [] := by
      rw [List.filter_eq_nil_iff]
      intro a ha
      rw [mem_range'_iff] at ha
      simp [hall a (by omega) (by omega)]
    rw [hfilter]
    rfl
  · intro hall
    simp only [part2]
    rw [searchRun_eq hash secret k hov]
    dsimp only
    have hfilter : (List.range' 1 (999 + 1000 * k)).filter
        (fun n => tier2B hash secret n) = [] := by
      rw [List.filter_eq_nil_iff]
      intro a ha
      rw [mem_range'_iff] at ha
      simp [hall a (by omega) (by omega)]
    rw [hfilter]
    rfl

/-- Witness for C10: under the never-qualifying hash both public answers
are the sentinel `u32::MAX`. -/
theorem c10_witness :
    part1 (searchRun hashNone [] 0) = 4294967295 ∧
      part2 (searchRun hashNone [] 0) = 4294967295 :=
  ⟨(c10_sentinel_escapes hashNone [] 0 (by omega)).2.2.1
      (fun m _ _ => hashNone_t1only [] m),
    (c10_sentinel_escapes hashNone [] 0 (by omega)).2.2.2
      (fun m _ _ => hashNone_t2 [] m)⟩

end Day04
